/-
Verification of the Audio-Peak-Normalization repository (src/main3.cpp)
against its natural-language specification.

The per-file signal processing (AudioProcessor::normalizePeak,
AudioProcessor::printStats) is embedded as pure functions over `List ℚ`
(exact arithmetic standing in for IEEE float samples).  The producer /
consumer harness of `main` and `worker_thread_func` (pthread mutex, the
two condition variables `g_cv_tasks` / `g_cv_done`, the counter
`g_active_tasks_count`, the flag `g_stop_threads`) is embedded as an
interleaving transition system `Step` over `SysState`, one transition per
mutex-protected critical section of the C++ code.
-/
import Mathlib

namespace AudioPeak

/-! ## Signal processor (main3.cpp lines 126-154, `AudioProcessor::normalizePeak`) -/

/-- Peak-magnitude scan of `normalizePeak` (lines 133-136): starts from `0.0f`
and folds `max` of absolute values over the buffer. -/
def peakMagnitude (audio : List ℚ) : ℚ :=
  audio.foldl (fun m s => max m |s|) 0

/-- Which branch of `normalizePeak` ran: the empty-buffer early return
(line 127, logs an error), the silence early return (line 138, logs the
"Audio contains only silence" warning), or the scaling path (lines 144-151). -/
inductive NormOutcome
  | noData
  | silence
  | normalized
deriving DecidableEq

/-- Result of `normalizePeak`: the (possibly rescaled) buffer, the branch
taken, and the `normalization_factor` that was computed by the division
`target_peak / peak_magnitude` on line 144 — `none` when that division was
never performed. -/
structure NormResult where
  samples : List ℚ
  outcome : NormOutcome
  factor : Option ℚ
deriving DecidableEq

/-- `AudioProcessor::normalizePeak` (lines 126-154): empty-buffer check,
peak scan, silence check, then in-place multiplication of every sample by
`target_peak / peak_magnitude`. -/
def normalizePeak (audio : List ℚ) (target_peak : ℚ) : NormResult :=
  match audio with
  | [] => ⟨audio, .noData, none⟩
  | _ :: _ =>
    let peak := peakMagnitude audio
    if peak = 0 then ⟨audio, .silence, none⟩
    else ⟨audio.map (fun s => s * (target_peak / peak)), .normalized, some (target_peak / peak)⟩

theorem le_foldl_absmax : ∀ (l : List ℚ) (a : ℚ), a ≤ l.foldl (fun m s => max m |s|) a
  | [], a => le_refl a
  | x :: xs, a => le_trans (le_max_left a |x|) (le_foldl_absmax xs (max a |x|))

theorem peakMagnitude_nonneg (l : List ℚ) : 0 ≤ peakMagnitude l :=
  le_foldl_absmax l 0

theorem foldl_absmax_map_mul (c : ℚ) : ∀ (l : List ℚ) (a : ℚ),
    (l.map fun s => s * c).foldl (fun m s => max m |s|) (|c| * a)
      = |c| * l.foldl (fun m s => max m |s|) a
  | [], _ => rfl
  | x :: xs, a => by
    have h1 : |x * c| = |c| * |x| := by rw [abs_mul, mul_comm]
    have h2 : max (|c| * a) (|c| * |x|) = |c| * max a |x| :=
      (mul_max_of_nonneg a |x| (abs_nonneg c)).symm
    simp only [List.map_cons, List.foldl_cons, h1, h2]
    exact foldl_absmax_map_mul c xs (max a |x|)

theorem peakMagnitude_map_mul (c : ℚ) (l : List ℚ) :
    peakMagnitude (l.map fun s => s * c) = |c| * peakMagnitude l := by
  have h := foldl_absmax_map_mul c l 0
  rw [mul_zero] at h
  exact h

theorem foldl_absmax_zero : ∀ (l : List ℚ), (∀ x ∈ l, x = 0) →
    l.foldl (fun m s => max m |s|) 0 = 0
  | [], _ => rfl
  | x :: xs, h => by
    have hx : x = 0 := h x (List.mem_cons_self x xs)
    have hmax : max (0 : ℚ) |x| = 0 := by rw [hx]; simp
    simp only [List.foldl_cons, hmax]
    exact foldl_absmax_zero xs (fun y hy => h y (List.mem_cons_of_mem x hy))

theorem normalizePeak_samples_length (l : List ℚ) (T : ℚ) :
    (normalizePeak l T).samples.length = l.length := by
  cases l with
  | nil => rfl
  | cons x xs =>
    unfold normalizePeak
    by_cases hp : peakMagnitude (x :: xs) = 0 <;> simp [hp]

/-- A buffer whose peak already equals the target is a fixed point of
`normalizePeak` (the scale factor computed on line 144 is `T / T = 1`). -/
theorem renorm_fixed (c : List ℚ) (T : ℚ) (hc : c ≠ []) (hp : peakMagnitude c = T) :
    (normalizePeak c T).samples = c ∧ (T ≠ 0 → (normalizePeak c T).factor = some 1) := by
  cases c with
  | nil => exact absurd rfl hc
  | cons x xs =>
    by_cases hT : T = 0
    · subst hT
      constructor
      · simp [normalizePeak, hp]
      · intro h; exact absurd rfl h
    · have hpz : peakMagnitude (x :: xs) ≠ 0 := by rw [hp]; exact hT
      constructor
      · simp only [normalizePeak, hp, if_neg hT, div_self hT]
        simp
      · intro _
        simp only [normalizePeak, hp, if_neg hT, div_self hT]

/-! ### Claims C4, C5, C9 about `normalizePeak` -/

/-- C4 (counterexample): the claim quantifies over "every target value T",
but for the negative target `T = -1` on the one-sample buffer `[1]` (peak
magnitude `1 ≠ 0`) the code scales by `-1/1` and the resulting buffer
`[-1]` has peak magnitude `1`, which differs from `T = -1` by `2` — far
outside a `1e-6` relative tolerance. -/
theorem c4_peak_counterexample :
    peakMagnitude [(1 : ℚ)] ≠ 0
    ∧ (normalizePeak [(1 : ℚ)] (-1)).samples = [-1]
    ∧ peakMagnitude (normalizePeak [(1 : ℚ)] (-1)).samples = 1
    ∧ ¬ |peakMagnitude (normalizePeak [(1 : ℚ)] (-1)).samples - (-1)| ≤ |(-1 : ℚ)| / 1000000 := by
  refine ⟨?_, ?_, ?_, ?_⟩ <;> norm_num [normalizePeak, peakMagnitude, abs]

/-- C4 (amended): for every sample buffer with nonzero peak magnitude and
every NONNEGATIVE target `T`, `normalizePeak` multiplies each sample by
`T / peak` (the factor computed on line 144 of main3.cpp) and the
resulting buffer's peak magnitude equals `T` — exactly, in the exact
rational model, hence a fortiori within any floating-point tolerance. -/
theorem c4_normalize_peak_eq_target (l : List ℚ) (T : ℚ)
    (hp : peakMagnitude l ≠ 0) (hT : 0 ≤ T) :
    (normalizePeak l T).samples = l.map (fun s => s * (T / peakMagnitude l))
    ∧ (normalizePeak l T).factor = some (T / peakMagnitude l)
    ∧ peakMagnitude (normalizePeak l T).samples = T := by
  cases l with
  | nil => exact absurd rfl hp
  | cons x xs =>
    have hsamples : (normalizePeak (x :: xs) T).samples
        = (x :: xs).map (fun s => s * (T / peakMagnitude (x :: xs))) := by
      simp [normalizePeak, hp]
    have hfactor : (normalizePeak (x :: xs) T).factor
        = some (T / peakMagnitude (x :: xs)) := by
      simp [normalizePeak, hp]
    refine ⟨hsamples, hfactor, ?_⟩
    rw [hsamples, peakMagnitude_map_mul]
    have hppos : 0 < peakMagnitude (x :: xs) :=
      lt_of_le_of_ne (peakMagnitude_nonneg _) (Ne.symm hp)
    have hfac : 0 ≤ T / peakMagnitude (x :: xs) := div_nonneg hT (le_of_lt hppos)
    rw [abs_of_nonneg hfac, div_mul_cancel₀ T hp]

/-- C4 witness: concrete instance of the amended claim at buffer `[1/2]`
and target `2`. -/
theorem c4_normalize_peak_eq_target_witness :
    (normalizePeak [(1 : ℚ)/2] 2).samples
        = [(1 : ℚ)/2].map (fun s => s * (2 / peakMagnitude [(1 : ℚ)/2]))
    ∧ (normalizePeak [(1 : ℚ)/2] 2).factor = some (2 / peakMagnitude [(1 : ℚ)/2])
    ∧ peakMagnitude (normalizePeak [(1 : ℚ)/2] 2).samples = 2 :=
  c4_normalize_peak_eq_target [(1 : ℚ)/2] 2
    (by norm_num [peakMagnitude, abs]) (by norm_num)

/-- C5: on a nonempty all-zero buffer the peak scan yields `0`, so
`normalizePeak` takes the silence early return of lines 138-141: the
buffer is returned unchanged, the outcome is the logged "silence" warning
(a non-error no-op), and the division `target_peak / peak` of line 144 is
never performed (`factor = none`). -/
theorem c5_silence_no_division (l : List ℚ) (T : ℚ) (hne : l ≠ [])
    (hz : ∀ x ∈ l, x = 0) :
    normalizePeak l T = ⟨l, .silence, none⟩ := by
  cases l with
  | nil => exact absurd rfl hne
  | cons x xs =>
    have hp : peakMagnitude (x :: xs) = 0 := foldl_absmax_zero _ hz
    simp [normalizePeak, hp]

/-- C5 witness: the all-zero two-sample buffer with target `7/10`. -/
theorem c5_silence_no_division_witness :
    normalizePeak [(0 : ℚ), 0] (7/10) = ⟨[0, 0], .silence, none⟩ :=
  c5_silence_no_division [(0 : ℚ), 0] (7/10) (by simp) (by norm_num)

/-- C9: normalization is idempotent in effect — for a buffer `b` with
nonzero peak, if the first application of `normalizePeak` with target `T`
produced a buffer whose peak magnitude is `T` (i.e. a buffer "already
normalized to peak T"), then reapplying `normalizePeak` with the same
target changes no sample at all (exactly, in the rational model), and
whenever `T ≠ 0` the scale factor of the second application is exactly 1. -/
theorem c9_normalize_idempotent (b : List ℚ) (T : ℚ)
    (hb : peakMagnitude b ≠ 0)
    (hT : peakMagnitude (normalizePeak b T).samples = T) :
    (normalizePeak ((normalizePeak b T).samples) T).samples = (normalizePeak b T).samples
    ∧ (T ≠ 0 → (normalizePeak ((normalizePeak b T).samples) T).factor = some 1) := by
  have hbne : b ≠ [] := by
    intro h
    apply hb
    rw [h]
    rfl
  have hne : (normalizePeak b T).samples ≠ [] := by
    intro h
    apply hbne
    have hlen := normalizePeak_samples_length b T
    rw [h] at hlen
    exact List.length_eq_zero.mp hlen.symm
  exact renorm_fixed _ T hne hT

/-- C9 witness: buffer `[1, -1/2]` (peak `1`), target `1/2`; the first
application yields `[1/2, -1/4]` with peak `1/2`, and the theorem gives
that the second application is the identity with factor 1. -/
theorem c9_normalize_idempotent_witness :
    (normalizePeak ((normalizePeak [(1 : ℚ), -1/2] (1/2)).samples) (1/2)).samples
        = (normalizePeak [(1 : ℚ), -1/2] (1/2)).samples
    ∧ ((1 : ℚ)/2 ≠ 0 →
        (normalizePeak ((normalizePeak [(1 : ℚ), -1/2] (1/2)).samples) (1/2)).factor = some 1) :=
  c9_normalize_idempotent [(1 : ℚ), -1/2] (1/2)
    (by norm_num [peakMagnitude, abs])
    (by norm_num [normalizePeak, peakMagnitude, abs])

/-! ## Statistics (main3.cpp lines 157-182, `AudioProcessor::printStats`) -/

/-- The quantities computed by `printStats`: `min_val` and `max_val` via
`min_element` / `max_element`, `peak = max(|min|, |max|)`, and the mean of
the squared samples (`sum_squares / audio_data.size()`), of which the
printed RMS is the square root. -/
structure AudioStats where
  minVal : ℚ
  maxVal : ℚ
  peak : ℚ
  meanSquare : ℚ
deriving DecidableEq

/-- `AudioProcessor::printStats` (lines 157-182) as a pure function: `none`
on an empty buffer (the code logs "No audio data" and returns), otherwise
the min/max/peak/mean-square reductions.  The printed
`RMS = sqrt(meanSquare)` and `Peak-to-RMS = rms > 0 ? peak / rms : 0` are
stated about this structure in the C8 theorem. -/
def computeStats (audio : List ℚ) : Option AudioStats :=
  match audio with
  | [] => none
  | x :: xs =>
    let min_val := xs.foldl min x
    let max_val := xs.foldl max x
    let sum_squares := audio.foldl (fun acc s => acc + s * s) 0
    some ⟨min_val, max_val, max |min_val| |max_val|, sum_squares / audio.length⟩

theorem foldl_min_le : ∀ (xs : List ℚ) (a : ℚ), xs.foldl min a ≤ a
  | [], a => le_refl a
  | x :: xs, a => le_trans (foldl_min_le xs (min a x)) (min_le_left a x)

theorem foldl_min_le_of_mem : ∀ (xs : List ℚ) (a y : ℚ), y ∈ xs → xs.foldl min a ≤ y
  | [], _, y, hy => absurd hy (List.not_mem_nil y)
  | x :: xs, a, y, hy => by
    rcases List.mem_cons.mp hy with h | h
    · subst h
      exact le_trans (foldl_min_le xs (min a y)) (min_le_right a y)
    · exact foldl_min_le_of_mem xs (min a x) y h

theorem foldl_min_mem : ∀ (xs : List ℚ) (a : ℚ), xs.foldl min a = a ∨ xs.foldl min a ∈ xs
  | [], a => Or.inl rfl
  | x :: xs, a => by
    rcases foldl_min_mem xs (min a x) with h | h
    · rcases min_choice a x with hm | hm
      · exact Or.inl (by rw [List.foldl_cons, h, hm])
      · exact Or.inr (by rw [List.foldl_cons, h, hm]; exact List.mem_cons_self x xs)
    · exact Or.inr (List.mem_cons_of_mem x h)

theorem le_foldl_max : ∀ (xs : List ℚ) (a : ℚ), a ≤ xs.foldl max a
  | [], a => le_refl a
  | x :: xs, a => le_trans (le_max_left a x) (le_foldl_max xs (max a x))

theorem mem_le_foldl_max : ∀ (xs : List ℚ) (a y : ℚ), y ∈ xs → y ≤ xs.foldl max a
  | [], _, y, hy => absurd hy (List.not_mem_nil y)
  | x :: xs, a, y, hy => by
    rcases List.mem_cons.mp hy with h | h
    · subst h
      exact le_trans (le_max_right a y) (le_foldl_max xs (max a y))
    · exact mem_le_foldl_max xs (max a x) y h

theorem foldl_max_mem : ∀ (xs : List ℚ) (a : ℚ), xs.foldl max a = a ∨ xs.foldl max a ∈ xs
  | [], a => Or.inl rfl
  | x :: xs, a => by
    rcases foldl_max_mem xs (max a x) with h | h
    · rcases max_choice a x with hm | hm
      · exact Or.inl (by rw [List.foldl_cons, h, hm])
      · exact Or.inr (by rw [List.foldl_cons, h, hm]; exact List.mem_cons_self x xs)
    · exact Or.inr (List.mem_cons_of_mem x h)

theorem foldl_addsq : ∀ (l : List ℚ) (a : ℚ),
    l.foldl (fun acc s => acc + s * s) a = a + (l.map fun s => s * s).sum
  | [], a => by simp
  | x :: xs, a => by
    simp only [List.foldl_cons, List.map_cons, List.sum_cons]
    rw [foldl_addsq xs (a + x * x)]
    ring

/-- C8: `computeStats` returns min = minimum sample, max = maximum sample,
peak = max(|min|, |max|), and the mean square whose square root is the
printed RMS; on the buffer `[-0.5, 0.25, -1.0, 0.75]` it yields
min = -1, max = 3/4, peak = 1 and mean square 15/32 = 0.46875, the RMS
`sqrt(15/32)` lies in (0.6846, 0.6847) (the claimed ≈ 0.6847), the code's
`rms > 0` guard holds, and the peak-to-RMS ratio `peak / rms = 1 / rms`
lies in (1.4604, 1.4608) (the claimed ≈ 1.4603, accurate to 5·10⁻⁴);
finally, on an all-zero buffer the mean square is 0, its square root (the
RMS) is 0, so the `rms > 0` test of line 181 fails and the code prints the
sentinel `0.0f` instead of dividing. -/
theorem c8_compute_stats :
    (∀ (l : List ℚ) (st : AudioStats), computeStats l = some st →
        st.minVal ∈ l ∧ st.maxVal ∈ l
        ∧ (∀ y ∈ l, st.minVal ≤ y ∧ y ≤ st.maxVal)
        ∧ st.peak = max |st.minVal| |st.maxVal|
        ∧ st.meanSquare * l.length = (l.map fun s => s * s).sum)
    ∧ computeStats [-(1:ℚ)/2, 1/4, -1, 3/4] = some ⟨-1, 3/4, 1, 15/32⟩
    ∧ ((15 : ℚ)/32 : ℝ) = 0.46875
    ∧ Real.sqrt ((15 : ℝ)/32) ^ 2 = 15/32
    ∧ 0.6846 < Real.sqrt ((15 : ℝ)/32)
    ∧ Real.sqrt ((15 : ℝ)/32) < 0.6847
    ∧ 0 < Real.sqrt ((15 : ℝ)/32)
    ∧ 1.4604 < 1 / Real.sqrt ((15 : ℝ)/32)
    ∧ 1 / Real.sqrt ((15 : ℝ)/32) < 1.4608
    ∧ computeStats [(0 : ℚ), 0] = some ⟨0, 0, 0, 0⟩
    ∧ Real.sqrt ((0 : ℚ) : ℝ) = 0 := by
  have hlow : (0.6846 : ℝ) < Real.sqrt ((15 : ℝ)/32) := by
    rw [show (0.6846 : ℝ) = Real.sqrt (0.6846 ^ 2) by rw [Real.sqrt_sq (by norm_num : (0:ℝ) ≤ 0.6846)]]
    exact Real.sqrt_lt_sqrt (by norm_num) (by norm_num)
  have hhigh : Real.sqrt ((15 : ℝ)/32) < 0.6847 := by
    rw [Real.sqrt_lt' (by norm_num : (0 : ℝ) < 0.6847)]
    norm_num
  have hpos : 0 < Real.sqrt ((15 : ℝ)/32) := Real.sqrt_pos.mpr (by norm_num)
  refine ⟨?_, ?_, by norm_num, Real.sq_sqrt (by norm_num), hlow, hhigh, hpos, ?_, ?_, ?_, ?_⟩
  · intro l st h
    cases l with
    | nil => simp [computeStats] at h
    | cons x xs =>
      rw [computeStats] at h
      simp only [Option.some.injEq] at h
      subst h
      refine ⟨?_, ?_, ?_, rfl, ?_⟩
      · rcases foldl_min_mem xs x with h | h
        · rw [h]; exact List.mem_cons_self x xs
        · exact List.mem_cons_of_mem x h
      · rcases foldl_max_mem xs x with h | h
        · rw [h]; exact List.mem_cons_self x xs
        · exact List.mem_cons_of_mem x h
      · intro y hy
        rcases List.mem_cons.mp hy with h | h
        · subst h
          exact ⟨foldl_min_le xs y, le_foldl_max xs y⟩
        · exact ⟨foldl_min_le_of_mem xs x y h, mem_le_foldl_max xs x y h⟩
      · show (x :: xs).foldl (fun acc s => acc + s * s) 0 / ((x :: xs).length : ℚ)
            * ((x :: xs).length : ℚ) = _
        rw [foldl_addsq, zero_add]
        exact div_mul_cancel₀ _ (by
          simp only [List.length_cons]
          exact_mod_cast Nat.succ_ne_zero xs.length)
  · norm_num [computeStats, min_def, max_def, abs]
  · rw [lt_div_iff₀ hpos]
    nlinarith
  · rw [div_lt_iff₀ hpos]
    nlinarith
  · norm_num [computeStats, min_def, max_def, abs]
  · simp

/-- C8 witness: the general conjunct of `c8_compute_stats` instantiated on
the concrete buffer of the claim. -/
theorem c8_compute_stats_witness :
    (⟨-1, 3/4, 1, 15/32⟩ : AudioStats).minVal ∈ [-(1:ℚ)/2, 1/4, -1, 3/4]
    ∧ (⟨-1, 3/4, 1, 15/32⟩ : AudioStats).maxVal ∈ [-(1:ℚ)/2, 1/4, -1, 3/4]
    ∧ (∀ y ∈ [-(1:ℚ)/2, 1/4, -1, 3/4],
        (⟨-1, 3/4, 1, 15/32⟩ : AudioStats).minVal ≤ y
        ∧ y ≤ (⟨-1, 3/4, 1, 15/32⟩ : AudioStats).maxVal)
    ∧ (⟨-1, 3/4, 1, 15/32⟩ : AudioStats).peak
        = max |(⟨-1, 3/4, 1, 15/32⟩ : AudioStats).minVal| |(⟨-1, 3/4, 1, 15/32⟩ : AudioStats).maxVal|
    ∧ (⟨-1, 3/4, 1, 15/32⟩ : AudioStats).meanSquare * ([-(1:ℚ)/2, 1/4, -1, 3/4] : List ℚ).length
        = (([-(1:ℚ)/2, 1/4, -1, 3/4] : List ℚ).map fun s => s * s).sum :=
  c8_compute_stats.1 [-(1:ℚ)/2, 1/4, -1, 3/4] ⟨-1, 3/4, 1, 15/32⟩
    (by norm_num [computeStats, min_def, max_def, abs])

/-! ## File eligibility (main3.cpp lines 212-220 `isAudioFile`, line 341) -/

/-- C++ `std::string::find`-style prefix test: does the pattern (second
argument) start at the head of the first argument? -/
def startsWithL : List Char → List Char → Bool
  | _, [] => true
  | [], _ :: _ => false
  | h :: hs, p :: ps => h = p && startsWithL hs ps

/-- Substring occurrence: `hasSub hay pat = true` iff `pat` occurs
contiguously somewhere in `hay`.  This is exactly the condition
`hay.rfind(pat) != std::string::npos` used on lines 215-219 (`rfind`
returns the last occurrence's position, `npos` iff there is none, and
`rfind("")` returns `size() ≠ npos`). -/
def hasSub : List Char → List Char → Bool
  | [], pat => pat.isEmpty
  | h :: t, pat => startsWithL (h :: t) pat || hasSub t pat

/-- Line 213-214: copy of the filename mapped through `::tolower`. -/
def lowerChars (s : String) : List Char :=
  s.data.map Char.toLower

/-- `isAudioFile` (lines 212-220): lowercases the filename and tests
`rfind(ext) != npos` — i.e. substring occurrence, not suffix match — for
each of the five allow-listed extensions. -/
def isAudioFile (filename : String) : Bool :=
  hasSub (lowerChars filename) ".wav".data
  || hasSub (lowerChars filename) ".flac".data
  || hasSub (lowerChars filename) ".ogg".data
  || hasSub (lowerChars filename) ".aiff".data
  || hasSub (lowerChars filename) ".mp3".data

/-- Line 341: a task is created for a directory entry iff `stat` succeeded
with `S_ISREG` (abstracted here as the boolean `isRegularFile`) and
`isAudioFile(filename)` holds. -/
def eligibleEntry (isRegularFile : Bool) (filename : String) : Bool :=
  isRegularFile && isAudioFile filename

/-- Modelled from the spec: "eligibility by extension match against a
fixed allow-list (case-insensitive)" — the lowercased filename must END
with one of the five allow-listed extensions.  This is the spec-side
eligibility test that C6 asserts the code implements; it is compared
against the source-side `isAudioFile` above. -/
def extensionMatches (filename : String) : Bool :=
  [".wav", ".flac", ".ogg", ".aiff", ".mp3"].any fun e =>
    startsWithL (lowerChars filename).reverse e.data.reverse

/-- C6: the code contradicts the claim (and the function's own comment
"check if a file has a common audio extension"): the regular file
`song.wav.backup` has extension `.backup`, which matches no entry of the
allow-list, yet `isAudioFile` accepts it — `rfind(".wav") != npos` tests
substring occurrence, not extension match — so a task IS created for it.
On genuine extension matches (e.g. `track.WAV`) both tests agree. -/
theorem c6_eligibility_substring_bug :
    eligibleEntry true "song.wav.backup" = true
    ∧ isAudioFile "song.wav.backup" = true
    ∧ extensionMatches "song.wav.backup" = false
    ∧ eligibleEntry true "track.WAV" = true
    ∧ extensionMatches "track.WAV" = true
    ∧ eligibleEntry true "readme.txt" = false
    ∧ eligibleEntry false "song.wav" = false := by
  refine ⟨rfl, rfl, rfl, rfl, rfl, rfl, rfl⟩

/-! ## The worker-pool harness (main3.cpp lines 22-39, 222-278, 281-399)

Every access to the shared state (`g_task_queue`, `g_active_tasks_count`,
`g_stop_threads`) in the C++ code happens inside a `g_queue_mutex`
critical section; the transition system below has one transition per such
critical section, interleaved arbitrarily between the dispatcher (main
thread) and the workers.  Condition variables are modelled faithfully:
a parked thread moves only when signalled/broadcast (or by a spurious
wakeup, which POSIX permits and the code's re-check loops tolerate), and
`pthread_cond_signal(&g_cv_done)` on line 273 is edge-triggered — it wakes
the dispatcher only if it is currently parked in the drain-wait. -/

/-- The `AudioTask` struct (lines 32-37). -/
structure AudioTask where
  input_filepath : String
  output_filepath : String
  filename : String
  peak_level : ℚ
deriving DecidableEq

/-- Local control state of one worker thread running
`worker_thread_func` (lines 223-278):
`notStarted` — `pthread_create` has not happened yet;
`atLoop` — at the top of the loop, about to take the mutex and evaluate
the wait/stop/pop logic of lines 226-242;
`waiting` — parked in `pthread_cond_wait(&g_cv_tasks, …)` (line 230);
`processing t` — outside the mutex, running the per-file pipeline
load → stats → normalize → stats → save (lines 246-266) for task `t`;
`terminated` — broke out of the loop (line 236) and returned. -/
inductive WStatus
  | notStarted
  | atLoop
  | waiting
  | processing (t : AudioTask)
  | terminated
deriving DecidableEq

/-- Control state of the dispatcher (`main`, lines 322-399):
`pushing rem` — enumeration loop (lines 330-348) with `rem` still to push;
`checkEmpty` — the `g_active_tasks_count == 0` early-exit test (line 355);
`broadcastAvail` — threads created (lines 361-367), about to broadcast
`g_cv_tasks` (line 370);
`draining` — holding the mutex, about to evaluate `g_active_tasks_count > 0`
(line 375);
`drainWaiting` — parked in `pthread_cond_wait(&g_cv_done, …)` (line 376);
`stopping` — about to set `g_stop_threads` and broadcast (lines 381-384);
`joining` — in the `pthread_join` loop (lines 387-389);
`printing` — about to print the completion message (line 397);
`exited code printed` — returned from `main` with exit code `code`, having
printed `g_active_tasks_count` as "Total files processed" (`printed`,
`none` when the zero-files message of line 356 was printed instead). -/
inductive MStatus
  | pushing (rem : List AudioTask)
  | checkEmpty
  | broadcastAvail
  | draining
  | drainWaiting
  | stopping
  | joining
  | printing
  | exited (code : ℤ) (printed : Option ℤ)
deriving DecidableEq

/-- The shared state of the process: `g_task_queue`,
`g_active_tasks_count`, `g_stop_threads`, the workers' control states, the
dispatcher's control state, and a ghost history `completedLog` recording,
in completion order, each task a worker finished together with whether its
pipeline succeeded (`true`) or was logged as failed (`false`). -/
structure SysState where
  queue : List AudioTask
  active : ℤ
  stop : Bool
  workers : List WStatus
  mainSt : MStatus
  completedLog : List (AudioTask × Bool)
deriving DecidableEq

/-- `pthread_cond_broadcast(&g_cv_tasks)` (lines 370 and 383): every
worker parked on the condition variable becomes runnable again (it
re-acquires the mutex and re-evaluates the loop predicate — state
`atLoop`); all other workers are unaffected. -/
def wakeWaiting : WStatus → WStatus
  | .waiting => .atLoop
  | w => w

/-- State after a worker's completion bookkeeping (lines 268-275): under
the mutex it decrements `g_active_tasks_count`, and if the counter reached
0 with an empty queue it signals `g_cv_done` — which wakes the dispatcher
only if the dispatcher is parked in the drain wait (signals are lost
otherwise).  The ghost log records the finished task and its outcome. -/
def finishState (s : SysState) (i : ℕ) (t : AudioTask) (ok : Bool) : SysState :=
  { s with
    active := s.active - 1
    workers := s.workers.set i .atLoop
    completedLog := s.completedLog ++ [(t, ok)]
    mainSt := if s.active - 1 = 0 ∧ s.queue = [] ∧ s.mainSt = .drainWaiting
              then .draining else s.mainSt }

/-- One interleaved transition of the system: each constructor is one
mutex-protected critical section of main3.cpp (or a park/unpark of a
condition-variable wait). -/
inductive Step : SysState → SysState → Prop
  /-- Lines 229-231: queue empty and stop not requested — the worker parks
  on `g_cv_tasks`. -/
  | workerWait (s : SysState) (i : ℕ) :
      s.workers.get? i = some .atLoop → s.queue = [] → s.stop = false →
      Step s { s with workers := s.workers.set i .waiting }
  /-- Lines 234-237: stop requested and queue empty — the worker breaks
  out of its loop and terminates. -/
  | workerExit (s : SysState) (i : ℕ) :
      s.workers.get? i = some .atLoop → s.queue = [] → s.stop = true →
      Step s { s with workers := s.workers.set i .terminated }
  /-- Lines 240-242: queue nonempty — the worker pops the head task (FIFO)
  and leaves the critical section to process it.  Note the counter is NOT
  touched here. -/
  | workerPop (s : SysState) (i : ℕ) (t : AudioTask) (rest : List AudioTask) :
      s.workers.get? i = some .atLoop → s.queue = t :: rest →
      Step s { s with queue := rest, workers := s.workers.set i (.processing t) }
  /-- Lines 246-275: the worker finishes the full pipeline for its task —
  `ok` records whether load+save succeeded (`true`) or a failure was
  logged (`false`); either way it performs the same completion
  bookkeeping and loops back. -/
  | workerFinish (s : SysState) (i : ℕ) (t : AudioTask) (ok : Bool) :
      s.workers.get? i = some (.processing t) →
      Step s (finishState s i t ok)
  /-- POSIX spurious wakeup of `pthread_cond_wait` (line 230): the worker
  re-acquires the mutex and re-evaluates the loop predicate. -/
  | workerSpurious (s : SysState) (i : ℕ) :
      s.workers.get? i = some .waiting →
      Step s { s with workers := s.workers.set i .atLoop }
  /-- Lines 341-345: the dispatcher pushes one enumerated task and
  increments `g_active_tasks_count`, under the mutex. -/
  | mainPush (s : SysState) (t : AudioTask) (rest : List AudioTask) :
      s.mainSt = .pushing (t :: rest) →
      Step s { s with queue := s.queue ++ [t], active := s.active + 1,
                      mainSt := .pushing rest }
  /-- Line 348: enumeration finished. -/
  | mainPushDone (s : SysState) :
      s.mainSt = .pushing [] →
      Step s { s with mainSt := .checkEmpty }
  /-- Lines 355-358: zero tasks were enumerated — print the message and
  return 0 without ever creating workers or touching the drain wait. -/
  | mainExitEmpty (s : SysState) :
      s.mainSt = .checkEmpty → s.active = 0 →
      Step s { s with mainSt := .exited 0 none }
  /-- Lines 361-367: at least one task — create the worker threads. -/
  | mainStartWorkers (s : SysState) :
      s.mainSt = .checkEmpty → s.active ≠ 0 →
      Step s { s with workers := s.workers.map (fun _ => .atLoop),
                      mainSt := .broadcastAvail }
  /-- Line 370: broadcast `g_cv_tasks` — wake every parked worker. -/
  | mainBroadcastAvail (s : SysState) :
      s.mainSt = .broadcastAvail →
      Step s { s with workers := s.workers.map wakeWaiting, mainSt := .draining }
  /-- Lines 373-378: the drain-wait predicate `g_active_tasks_count > 0`
  is false — leave the drain loop. -/
  | mainDrainExit (s : SysState) :
      s.mainSt = .draining → ¬ 0 < s.active →
      Step s { s with mainSt := .stopping }
  /-- Lines 375-376: the predicate holds — park on `g_cv_done`. -/
  | mainDrainWait (s : SysState) :
      s.mainSt = .draining → 0 < s.active →
      Step s { s with mainSt := .drainWaiting }
  /-- POSIX spurious wakeup of the drain wait: re-evaluate the predicate
  (the non-spurious wake is performed by `workerFinish`). -/
  | mainDrainSpurious (s : SysState) :
      s.mainSt = .drainWaiting →
      Step s { s with mainSt := .draining }
  /-- Lines 381-384: set `g_stop_threads = true` and broadcast
  `g_cv_tasks`, in one critical section. -/
  | mainStop (s : SysState) :
      s.mainSt = .stopping →
      Step s { s with stop := true, workers := s.workers.map wakeWaiting,
                      mainSt := .joining }
  /-- Lines 387-389: `pthread_join` of every worker returns once all of
  them have terminated. -/
  | mainJoin (s : SysState) :
      s.mainSt = .joining → (∀ w ∈ s.workers, w = .terminated) →
      Step s { s with mainSt := .printing }
  /-- Lines 397-398: print "Total files processed: " followed by the
  CURRENT value of `g_active_tasks_count`, then return 0. -/
  | mainPrint (s : SysState) :
      s.mainSt = .printing →
      Step s { s with mainSt := .exited 0 (some s.active) }

/-- Initial state for a run that will enumerate the task list `ts` with a
pool of `W` worker threads (`num_threads = 4` in the source; the claims
quantify over any pool size ≥ 1): empty queue, zero counter, stop flag
clear, no thread created yet, dispatcher about to enumerate. -/
def initState (ts : List AudioTask) (W : ℕ) : SysState :=
  ⟨[], 0, false, List.replicate W .notStarted, .pushing ts, []⟩

/-- Reachability from the initial state of a `ts`/`W` run. -/
def Reachable (ts : List AudioTask) (W : ℕ) (s : SysState) : Prop :=
  Relation.ReflTransGen Step (initState ts W) s

/-! ### Auxiliary list lemmas for the pool invariant -/

theorem countP_set_add {α : Type} (p : α → Bool) :
    ∀ (l : List α) (i : ℕ) (a b : α), l.get? i = some a →
      (l.set i b).countP p + (if p a then 1 else 0)
        = l.countP p + (if p b then 1 else 0)
  | [], i, a, b, h => by simp at h
  | x :: xs, 0, a, b, h => by
    simp only [List.get?] at h
    injection h with h
    subst h
    simp only [List.set_cons_zero, List.countP_cons]
    omega
  | x :: xs, i + 1, a, b, h => by
    have ih := countP_set_add p xs i a b h
    simp only [List.set_cons_succ, List.countP_cons]
    omega

theorem get?_set_self {α : Type} :
    ∀ (l : List α) (i : ℕ) (b : α), i < l.length → (l.set i b).get? i = some b
  | [], i, _, h => absurd h (Nat.not_lt_zero i)
  | _ :: _, 0, _, _ => rfl
  | _ :: xs, i + 1, b, h => get?_set_self xs i b (Nat.lt_of_succ_lt_succ h)

theorem get?_lt_length {α : Type} {l : List α} {i : ℕ} {a : α}
    (h : l.get? i = some a) : i < l.length := by
  rcases List.get?_eq_some.mp h with ⟨hl, _⟩
  exact hl

/-! ### The pool invariant -/

/-- Is this worker in the `Processing` state (holding a popped task)? -/
def isProcessingW : WStatus → Bool
  | .processing _ => true
  | _ => false

/-- Number of workers currently processing a popped task. -/
def procCount (ws : List WStatus) : ℕ := ws.countP isProcessingW

/-- Number of enumerated tasks the dispatcher has not pushed yet. -/
def remPushes : MStatus → ℕ
  | .pushing l => l.length
  | _ => 0

/-- Dispatcher states at or after worker-thread creation (line 361). -/
def mainStarted : MStatus → Prop
  | .pushing _ => False
  | .checkEmpty => False
  | .exited _ p => p ≠ none
  | _ => True

/-- Dispatcher states after the drain-wait loop of lines 373-378 has
returned. -/
def mainPastDrain : MStatus → Prop
  | .stopping => True
  | .joining => True
  | .printing => True
  | .exited _ p => p ≠ none
  | _ => False

/-- Dispatcher states after `g_stop_threads = true` was set (line 382). -/
def mainAfterStop : MStatus → Prop
  | .joining => True
  | .printing => True
  | .exited _ p => p ≠ none
  | _ => False

theorem afterStop_pastDrain (m : MStatus) : mainAfterStop m → mainPastDrain m := by
  cases m <;> simp [mainAfterStop, mainPastDrain]

theorem pastDrain_started (m : MStatus) : mainPastDrain m → mainStarted m := by
  cases m <;> simp [mainPastDrain, mainStarted]

theorem remPushes_of_started (m : MStatus) : mainStarted m → remPushes m = 0 := by
  cases m <;> simp [mainStarted, remPushes]

theorem procCount_map_wake (ws : List WStatus) :
    procCount (ws.map wakeWaiting) = procCount ws := by
  unfold procCount
  rw [List.countP_map]
  have h : isProcessingW ∘ wakeWaiting = isProcessingW :=
    funext fun w => by cases w <;> rfl
  rw [h]

theorem procCount_map_atLoop (ws : List WStatus) :
    procCount (ws.map fun _ => .atLoop) = 0 := by
  unfold procCount
  rw [List.countP_map]
  exact List.countP_eq_zero.mpr fun a _ => by simp [Function.comp, isProcessingW]

theorem procCount_eq_zero_of_dormant (ws : List WStatus)
    (h : ∀ w ∈ ws, w = .notStarted) : procCount ws = 0 :=
  List.countP_eq_zero.mpr fun w hw => by rw [h w hw]; simp [isProcessingW]

/-- The safety invariant of the harness, for a run that enumerates `N`
tasks.  `counter` and `conserve` pin down the meaning of
`g_active_tasks_count`; the remaining clauses track the phase discipline
of the dispatcher and the workers. -/
structure Inv (N : ℕ) (s : SysState) : Prop where
  counter : s.active = (s.queue.length : ℤ) + (procCount s.workers : ℤ)
  conserve : N = remPushes s.mainSt + s.queue.length + procCount s.workers
      + s.completedLog.length
  dormant : ¬ mainStarted s.mainSt → ∀ w ∈ s.workers, w = .notStarted
  started : mainStarted s.mainSt → ∀ w ∈ s.workers, w ≠ .notStarted
  drained : mainPastDrain s.mainSt → s.active = 0
  stop_iff : s.stop = true ↔ mainAfterStop s.mainSt
  after_stop : mainAfterStop s.mainSt → ∀ w ∈ s.workers, w = .atLoop ∨ w = .terminated
  exit_code : ∀ c p, s.mainSt = .exited c p → c = 0
  printed_zero : ∀ c p, s.mainSt = .exited c (some p) → p = 0
  empty_run : N = 0 → s.mainSt = .pushing [] ∨ s.mainSt = .checkEmpty
      ∨ s.mainSt = .exited 0 none

theorem inv_init (ts : List AudioTask) (W : ℕ) : Inv ts.length (initState ts W) := by
  constructor
  · simp [initState, procCount_eq_zero_of_dormant _
      (fun w hw => List.eq_of_mem_replicate hw)]
  · simp [initState, remPushes, procCount_eq_zero_of_dormant _
      (fun w hw => List.eq_of_mem_replicate hw)]
  · intro _ w hw
    exact List.eq_of_mem_replicate hw
  · intro hst
    simp [initState, mainStarted] at hst
  · intro hpd
    simp [initState, mainPastDrain] at hpd
  · simp [initState, mainAfterStop]
  · intro hasp
    simp [initState, mainAfterStop] at hasp
  · intro c p h
    simp [initState] at h
  · intro c p h
    simp [initState] at h
  · intro h0
    left
    have : ts = [] := List.length_eq_zero.mp h0
    simp [initState, this]

theorem procCount_set (ws : List WStatus) (i : ℕ) (a b : WStatus)
    (hi : ws.get? i = some a) :
    procCount (ws.set i b) + (if isProcessingW a then 1 else 0)
      = procCount ws + (if isProcessingW b then 1 else 0) :=
  countP_set_add isProcessingW ws i a b hi

/-- Every transition of the harness preserves the invariant. -/
theorem inv_step {N : ℕ} {s s' : SysState} (h : Inv N s) (hst : Step s s') :
    Inv N s' := by
  obtain ⟨hcnt, hcons, hdor, hstart, hdr, hsi, has, hec, hpz, her⟩ := h
  cases hst with
  | workerWait i hi hq hs =>
    have hpc : procCount (s.workers.set i .waiting) = procCount s.workers := by
      have hh := procCount_set s.workers i .atLoop .waiting hi
      simp [isProcessingW] at hh
      exact hh
    refine ⟨?_, ?_, ?_, ?_, hdr, hsi, ?_, hec, hpz, her⟩
    · dsimp only
      rw [hpc]
      exact hcnt
    · dsimp only
      rw [hpc]
      exact hcons
    · intro hns w hw
      have := hdor hns _ (List.get?_mem hi)
      simp at this
    · intro hstd w hw
      rcases List.mem_or_eq_of_mem_set hw with hw' | hw'
      · exact hstart hstd w hw'
      · subst hw'
        simp
    · intro hasp
      have hh := hsi.mpr hasp
      rw [hs] at hh
      simp at hh
  | workerExit i hi hq hs =>
    have hpc : procCount (s.workers.set i .terminated) = procCount s.workers := by
      have hh := procCount_set s.workers i .atLoop .terminated hi
      simp [isProcessingW] at hh
      exact hh
    refine ⟨?_, ?_, ?_, ?_, hdr, hsi, ?_, hec, hpz, her⟩
    · dsimp only
      rw [hpc]
      exact hcnt
    · dsimp only
      rw [hpc]
      exact hcons
    · intro hns w hw
      have := hdor hns _ (List.get?_mem hi)
      simp at this
    · intro hstd w hw
      rcases List.mem_or_eq_of_mem_set hw with hw' | hw'
      · exact hstart hstd w hw'
      · subst hw'
        simp
    · intro hasp w hw
      rcases List.mem_or_eq_of_mem_set hw with hw' | hw'
      · exact has hasp w hw'
      · exact Or.inr hw'
  | workerPop i t rest hi hq =>
    have hpc : procCount (s.workers.set i (.processing t))
        = procCount s.workers + 1 := by
      have hh := procCount_set s.workers i .atLoop (.processing t) hi
      simp [isProcessingW] at hh
      omega
    refine ⟨?_, ?_, ?_, ?_, hdr, hsi, ?_, hec, hpz, her⟩
    · dsimp only
      rw [hpc]
      rw [hq] at hcnt
      simp only [List.length_cons] at hcnt
      push_cast at hcnt ⊢
      omega
    · dsimp only
      rw [hpc]
      rw [hq] at hcons
      simp only [List.length_cons] at hcons
      omega
    · intro hns w hw
      have := hdor hns _ (List.get?_mem hi)
      simp at this
    · intro hstd w hw
      rcases List.mem_or_eq_of_mem_set hw with hw' | hw'
      · exact hstart hstd w hw'
      · subst hw'
        simp
    · intro hasp w hw
      exfalso
      have h0 := hdr (afterStop_pastDrain _ hasp)
      rw [hq] at hcnt
      simp only [List.length_cons] at hcnt
      push_cast at hcnt
      omega
  | workerFinish i t ok hi =>
    have hpc : procCount (s.workers.set i .atLoop) + 1 = procCount s.workers := by
      have hh := procCount_set s.workers i (.processing t) .atLoop hi
      simp [isProcessingW] at hh
      omega
    have hstarted : mainStarted s.mainSt := by
      by_contra hns
      have := hdor hns _ (List.get?_mem hi)
      simp at this
    have hrem : remPushes s.mainSt = 0 := remPushes_of_started _ hstarted
    have hnd : ¬ mainPastDrain s.mainSt := by
      intro hpd
      have h0 := hdr hpd
      rw [h0] at hcnt
      omega
    by_cases hc : s.active - 1 = 0 ∧ s.queue = [] ∧ s.mainSt = .drainWaiting
    · refine ⟨?_, ?_, ?_, ?_, ?_, ?_, ?_, ?_, ?_, ?_⟩
      · simp only [finishState, if_pos hc]
        omega
      · simp only [finishState, if_pos hc]
        simp only [List.length_append, List.length_cons, List.length_nil]
        simp only [remPushes]
        omega
      · intro hns
        simp only [finishState, if_pos hc] at hns
        simp [mainStarted] at hns
      · intro _ w hw
        simp only [finishState, if_pos hc] at hw
        rcases List.mem_or_eq_of_mem_set hw with hw' | hw'
        · exact hstart hstarted w hw'
        · subst hw'
          simp
      · intro hpd
        simp only [finishState, if_pos hc] at hpd ⊢
        simp [mainPastDrain] at hpd
      · simp only [finishState, if_pos hc]
        rw [hc.2.2] at hsi
        simp [mainAfterStop] at hsi ⊢
        exact hsi
      · intro hasp
        simp only [finishState, if_pos hc] at hasp
        simp [mainAfterStop] at hasp
      · intro c p hcp
        simp only [finishState, if_pos hc] at hcp
        simp at hcp
      · intro c p hcp
        simp only [finishState, if_pos hc] at hcp
        simp at hcp
      · intro h0
        exfalso
        rcases her h0 with hh | hh | hh <;> rw [hc.2.2] at hh <;> simp at hh
    · refine ⟨?_, ?_, ?_, ?_, ?_, ?_, ?_, ?_, ?_, ?_⟩
      · simp only [finishState, if_neg hc]
        omega
      · simp only [finishState, if_neg hc]
        simp only [List.length_append, List.length_cons, List.length_nil]
        omega
      · intro hns
        simp only [finishState, if_neg hc] at hns
        exact absurd hstarted hns
      · intro _ w hw
        simp only [finishState, if_neg hc] at hw
        rcases List.mem_or_eq_of_mem_set hw with hw' | hw'
        · exact hstart hstarted w hw'
        · subst hw'
          simp
      · intro hpd
        simp only [finishState, if_neg hc] at hpd
        exact absurd hpd hnd
      · simp only [finishState, if_neg hc]
        exact hsi
      · intro hasp
        simp only [finishState, if_neg hc] at hasp
        exact absurd (afterStop_pastDrain _ hasp) hnd
      · intro c p hcp
        simp only [finishState, if_neg hc] at hcp
        exact hec c p hcp
      · intro c p hcp
        simp only [finishState, if_neg hc] at hcp
        exact hpz c p hcp
      · intro h0
        simp only [finishState, if_neg hc]
        exact her h0
  | workerSpurious i hi =>
    have hpc : procCount (s.workers.set i .atLoop) = procCount s.workers := by
      have hh := procCount_set s.workers i .waiting .atLoop hi
      simp [isProcessingW] at hh
      exact hh
    refine ⟨?_, ?_, ?_, ?_, hdr, hsi, ?_, hec, hpz, her⟩
    · dsimp only
      rw [hpc]
      exact hcnt
    · dsimp only
      rw [hpc]
      exact hcons
    · intro hns w hw
      have := hdor hns _ (List.get?_mem hi)
      simp at this
    · intro hstd w hw
      rcases List.mem_or_eq_of_mem_set hw with hw' | hw'
      · exact hstart hstd w hw'
      · subst hw'
        simp
    · intro hasp
      exfalso
      rcases has hasp _ (List.get?_mem hi) with hh | hh <;> simp at hh
  | mainPush t rest hm =>
    refine ⟨?_, ?_, ?_, ?_, ?_, ?_, ?_, ?_, ?_, ?_⟩
    · dsimp only
      simp only [List.length_append, List.length_cons, List.length_nil]
      push_cast
      omega
    · dsimp only
      rw [hm] at hcons
      simp only [remPushes, List.length_cons, List.length_append,
        List.length_nil] at hcons ⊢
      omega
    · intro _ w hw
      refine hdor ?_ w hw
      rw [hm]
      simp [mainStarted]
    · intro hstd
      simp [mainStarted] at hstd
    · intro hpd
      simp [mainPastDrain] at hpd
    · rw [hm] at hsi
      simp [mainAfterStop] at hsi ⊢
      exact hsi
    · intro hasp
      simp [mainAfterStop] at hasp
    · intro c p hcp
      simp at hcp
    · intro c p hcp
      simp at hcp
    · intro h0
      exfalso
      rcases her h0 with hh | hh | hh <;> rw [hm] at hh <;> simp at hh
  | mainPushDone hm =>
    refine ⟨hcnt, ?_, ?_, ?_, ?_, ?_, ?_, ?_, ?_, ?_⟩
    · dsimp only
      rw [hm] at hcons
      simpa [remPushes] using hcons
    · intro _ w hw
      refine hdor ?_ w hw
      rw [hm]
      simp [mainStarted]
    · intro hstd
      simp [mainStarted] at hstd
    · intro hpd
      simp [mainPastDrain] at hpd
    · rw [hm] at hsi
      simp [mainAfterStop] at hsi ⊢
      exact hsi
    · intro hasp
      simp [mainAfterStop] at hasp
    · intro c p hcp
      simp at hcp
    · intro c p hcp
      simp at hcp
    · intro _
      exact Or.inr (Or.inl rfl)
  | mainExitEmpty hm ha =>
    refine ⟨hcnt, ?_, ?_, ?_, ?_, ?_, ?_, ?_, ?_, ?_⟩
    · dsimp only
      rw [hm] at hcons
      simpa [remPushes] using hcons
    · intro _ w hw
      refine hdor ?_ w hw
      rw [hm]
      simp [mainStarted]
    · intro hstd
      simp [mainStarted] at hstd
    · intro hpd
      simp [mainPastDrain] at hpd
    · rw [hm] at hsi
      simp [mainAfterStop] at hsi ⊢
      exact hsi
    · intro hasp
      simp [mainAfterStop] at hasp
    · intro c p hcp
      injection hcp with h1 _
      exact h1.symm
    · intro c p hcp
      injection hcp with _ h2
      simp at h2
    · intro _
      exact Or.inr (Or.inr rfl)
  | mainStartWorkers hm ha =>
    have hpOld : procCount s.workers = 0 :=
      procCount_eq_zero_of_dormant _ (hdor (by rw [hm]; simp [mainStarted]))
    refine ⟨?_, ?_, ?_, ?_, ?_, ?_, ?_, ?_, ?_, ?_⟩
    · dsimp only
      rw [procCount_map_atLoop]
      rw [hpOld] at hcnt
      exact hcnt
    · dsimp only
      rw [procCount_map_atLoop]
      rw [hm] at hcons
      rw [hpOld] at hcons
      simpa [remPushes] using hcons
    · intro hns
      simp [mainStarted] at hns
    · intro _ w hw
      rcases List.mem_map.mp hw with ⟨w', _, hww⟩
      rw [← hww]
      simp
    · intro hpd
      simp [mainPastDrain] at hpd
    · rw [hm] at hsi
      simp [mainAfterStop] at hsi ⊢
      exact hsi
    · intro hasp
      simp [mainAfterStop] at hasp
    · intro c p hcp
      simp at hcp
    · intro c p hcp
      simp at hcp
    · intro h0
      exfalso
      rw [h0] at hcons
      omega
  | mainBroadcastAvail hm =>
    have hstd : mainStarted s.mainSt := by
      rw [hm]
      simp [mainStarted]
    refine ⟨?_, ?_, ?_, ?_, ?_, ?_, ?_, ?_, ?_, ?_⟩
    · dsimp only
      rw [procCount_map_wake]
      exact hcnt
    · dsimp only
      rw [procCount_map_wake]
      rw [hm] at hcons
      simpa [remPushes] using hcons
    · intro hns
      simp [mainStarted] at hns
    · intro _ w hw
      rcases List.mem_map.mp hw with ⟨w', hw', hww⟩
      have hne := hstart hstd w' hw'
      rw [← hww]
      cases w' with
      | notStarted => exact absurd rfl hne
      | atLoop => simp [wakeWaiting]
      | waiting => simp [wakeWaiting]
      | processing t' => simp [wakeWaiting]
      | terminated => simp [wakeWaiting]
    · intro hpd
      simp [mainPastDrain] at hpd
    · rw [hm] at hsi
      simp [mainAfterStop] at hsi ⊢
      exact hsi
    · intro hasp
      simp [mainAfterStop] at hasp
    · intro c p hcp
      simp at hcp
    · intro c p hcp
      simp at hcp
    · intro h0
      exfalso
      rcases her h0 with hh | hh | hh <;> rw [hm] at hh <;> simp at hh
  | mainDrainExit hm ha =>
    refine ⟨hcnt, ?_, ?_, ?_, ?_, ?_, ?_, ?_, ?_, ?_⟩
    · dsimp only
      rw [hm] at hcons
      simpa [remPushes] using hcons
    · intro hns
      simp [mainStarted] at hns
    · intro _
      exact hstart (by rw [hm]; simp [mainStarted])
    · intro _
      dsimp only
      omega
    · rw [hm] at hsi
      simp [mainAfterStop] at hsi ⊢
      exact hsi
    · intro hasp
      simp [mainAfterStop] at hasp
    · intro c p hcp
      simp at hcp
    · intro c p hcp
      simp at hcp
    · intro h0
      exfalso
      rcases her h0 with hh | hh | hh <;> rw [hm] at hh <;> simp at hh
  | mainDrainWait hm ha =>
    refine ⟨hcnt, ?_, ?_, ?_, ?_, ?_, ?_, ?_, ?_, ?_⟩
    · dsimp only
      rw [hm] at hcons
      simpa [remPushes] using hcons
    · intro hns
      simp [mainStarted] at hns
    · intro _
      exact hstart (by rw [hm]; simp [mainStarted])
    · intro hpd
      simp [mainPastDrain] at hpd
    · rw [hm] at hsi
      simp [mainAfterStop] at hsi ⊢
      exact hsi
    · intro hasp
      simp [mainAfterStop] at hasp
    · intro c p hcp
      simp at hcp
    · intro c p hcp
      simp at hcp
    · intro h0
      exfalso
      rcases her h0 with hh | hh | hh <;> rw [hm] at hh <;> simp at hh
  | mainDrainSpurious hm =>
    refine ⟨hcnt, ?_, ?_, ?_, ?_, ?_, ?_, ?_, ?_, ?_⟩
    · dsimp only
      rw [hm] at hcons
      simpa [remPushes] using hcons
    · intro hns
      simp [mainStarted] at hns
    · intro _
      exact hstart (by rw [hm]; simp [mainStarted])
    · intro hpd
      simp [mainPastDrain] at hpd
    · rw [hm] at hsi
      simp [mainAfterStop] at hsi ⊢
      exact hsi
    · intro hasp
      simp [mainAfterStop] at hasp
    · intro c p hcp
      simp at hcp
    · intro c p hcp
      simp at hcp
    · intro h0
      exfalso
      rcases her h0 with hh | hh | hh <;> rw [hm] at hh <;> simp at hh
  | mainStop hm =>
    have hpd0 : s.active = 0 := hdr (by rw [hm]; simp [mainPastDrain])
    have hproc0 : procCount s.workers = 0 := by
      rw [hpd0] at hcnt
      omega
    have hnoproc : ∀ w ∈ s.workers, isProcessingW w = false := by
      intro w hw
      have := List.countP_eq_zero.mp hproc0 w hw
      simpa using this
    refine ⟨?_, ?_, ?_, ?_, ?_, ?_, ?_, ?_, ?_, ?_⟩
    · dsimp only
      rw [procCount_map_wake]
      exact hcnt
    · dsimp only
      rw [procCount_map_wake]
      rw [hm] at hcons
      simpa [remPushes] using hcons
    · intro hns
      simp [mainStarted] at hns
    · intro _ w hw
      rcases List.mem_map.mp hw with ⟨w', hw', hww⟩
      have hne := hstart (by rw [hm]; simp [mainStarted]) w' hw'
      rw [← hww]
      cases w' with
      | notStarted => exact absurd rfl hne
      | atLoop => simp [wakeWaiting]
      | waiting => simp [wakeWaiting]
      | processing t' => simp [wakeWaiting]
      | terminated => simp [wakeWaiting]
    · intro _
      exact hpd0
    · simp [mainAfterStop]
    · intro _ w hw
      rcases List.mem_map.mp hw with ⟨w', hw', hww⟩
      have hne := hstart (by rw [hm]; simp [mainStarted]) w' hw'
      have hnp := hnoproc w' hw'
      rw [← hww]
      cases w' with
      | notStarted => exact absurd rfl hne
      | atLoop => exact Or.inl rfl
      | waiting => exact Or.inl rfl
      | processing t' => simp [isProcessingW] at hnp
      | terminated => exact Or.inr rfl
    · intro c p hcp
      simp at hcp
    · intro c p hcp
      simp at hcp
    · intro h0
      exfalso
      rcases her h0 with hh | hh | hh <;> rw [hm] at hh <;> simp at hh
  | mainJoin hm hall =>
    refine ⟨hcnt, ?_, ?_, ?_, ?_, ?_, ?_, ?_, ?_, ?_⟩
    · dsimp only
      rw [hm] at hcons
      simpa [remPushes] using hcons
    · intro hns
      simp [mainStarted] at hns
    · intro _
      exact hstart (by rw [hm]; simp [mainStarted])
    · intro _
      exact hdr (by rw [hm]; simp [mainPastDrain])
    · rw [hm] at hsi
      simp [mainAfterStop] at hsi ⊢
      exact hsi
    · intro _ w hw
      exact has (by rw [hm]; simp [mainAfterStop]) w hw
    · intro c p hcp
      simp at hcp
    · intro c p hcp
      simp at hcp
    · intro h0
      exfalso
      rcases her h0 with hh | hh | hh <;> rw [hm] at hh <;> simp at hh
  | mainPrint hm =>
    have ha0 : s.active = 0 := hdr (by rw [hm]; simp [mainPastDrain])
    refine ⟨hcnt, ?_, ?_, ?_, ?_, ?_, ?_, ?_, ?_, ?_⟩
    · dsimp only
      rw [hm] at hcons
      simpa [remPushes] using hcons
    · intro hns
      simp [mainStarted] at hns
    · intro _
      exact hstart (by rw [hm]; simp [mainStarted])
    · intro _
      exact ha0
    · rw [hm] at hsi
      simp [mainAfterStop] at hsi ⊢
      exact hsi
    · intro _ w hw
      exact has (by rw [hm]; simp [mainAfterStop]) w hw
    · intro c p hcp
      injection hcp with h1 _
      exact h1.symm
    · intro c p hcp
      injection hcp with _ h2
      rw [← Option.some.inj h2]
      exact ha0
    · intro h0
      exfalso
      rcases her h0 with hh | hh | hh <;> rw [hm] at hh <;> simp at hh

/-- The invariant holds in every reachable state. -/
theorem inv_reachable {ts : List AudioTask} {W : ℕ} {s : SysState}
    (h : Reachable ts W s) : Inv ts.length s := by
  induction h with
  | refl => exact inv_init ts W
  | tail _ hstep ih => exact inv_step ih hstep

/-! ### A concrete end-to-end execution

One task, one worker: push, start, pop, finish, drain, stop, exit, join,
print.  These states witness reachability facts used by the claim
theorems below. -/

/-- A concrete task, as `main` would build it (lines 337-343) for
`a.wav` with target peak `0.9`. -/
def taskA : AudioTask := ⟨"in/a.wav", "out/normalised_a.wav", "a.wav", 9/10⟩

def trc1 : SysState := ⟨[taskA], 1, false, [.notStarted], .pushing [], []⟩
def trc2 : SysState := ⟨[taskA], 1, false, [.notStarted], .checkEmpty, []⟩
def trc3 : SysState := ⟨[taskA], 1, false, [.atLoop], .broadcastAvail, []⟩
def trc4 : SysState := ⟨[taskA], 1, false, [.atLoop], .draining, []⟩
def trc5 : SysState := ⟨[], 1, false, [.processing taskA], .draining, []⟩
def trc6 : SysState := ⟨[], 0, false, [.atLoop], .draining, [(taskA, true)]⟩
def trc7 : SysState := ⟨[], 0, false, [.atLoop], .stopping, [(taskA, true)]⟩
def trc8 : SysState := ⟨[], 0, true, [.atLoop], .joining, [(taskA, true)]⟩
def trc9 : SysState := ⟨[], 0, true, [.terminated], .joining, [(taskA, true)]⟩
def trc10 : SysState := ⟨[], 0, true, [.terminated], .printing, [(taskA, true)]⟩
def trc11 : SysState := ⟨[], 0, true, [.terminated], .exited 0 (some 0), [(taskA, true)]⟩

theorem reach_trc5 : Reachable [taskA] 1 trc5 := by
  have h1 : Step (initState [taskA] 1) trc1 := Step.mainPush _ taskA [] rfl
  have h2 : Step trc1 trc2 := Step.mainPushDone _ rfl
  have h3 : Step trc2 trc3 := Step.mainStartWorkers _ rfl (by simp [trc2])
  have h4 : Step trc3 trc4 := Step.mainBroadcastAvail _ rfl
  have h5 : Step trc4 trc5 := Step.workerPop _ 0 taskA [] rfl rfl
  exact .tail (.tail (.tail (.tail (.single h1) h2) h3) h4) h5

theorem reach_trc8 : Reachable [taskA] 1 trc8 := by
  have h6 : Step trc5 trc6 := Step.workerFinish _ 0 taskA true rfl
  have h7 : Step trc6 trc7 := Step.mainDrainExit _ rfl (by simp [trc6])
  have h8 : Step trc7 trc8 := Step.mainStop _ rfl
  exact .tail (.tail (.tail reach_trc5 h6) h7) h8

theorem reach_trc11 : Reachable [taskA] 1 trc11 := by
  have h9 : Step trc8 trc9 := Step.workerExit _ 0 rfl rfl rfl
  have h10 : Step trc9 trc10 := Step.mainJoin _ rfl (by
    intro w hw
    simp [trc9] at hw
    exact hw)
  have h11 : Step trc10 trc11 := Step.mainPrint _ rfl
  exact .tail (.tail (.tail reach_trc8 h9) h10) h11

/-! ### Shutdown termination -/

/-- Is this worker at the top of its loop? -/
def isAtLoopW : WStatus → Bool
  | .atLoop => true
  | _ => false

/-- With the stop flag set, the queue empty, and every worker either at
its loop head or terminated, scheduling each remaining worker once drives
the whole pool to `terminated` (each one takes the `workerExit` branch of
lines 234-237), without changing the dispatcher's state. -/
theorem terminate_all (n : ℕ) : ∀ (s : SysState),
    s.workers.countP isAtLoopW = n →
    s.stop = true → s.queue = [] →
    (∀ w ∈ s.workers, w = .atLoop ∨ w = .terminated) →
    ∃ s', Relation.ReflTransGen Step s s'
      ∧ (∀ w ∈ s'.workers, w = .terminated)
      ∧ s'.mainSt = s.mainSt ∧ s'.queue = s.queue ∧ s'.stop = s.stop := by
  induction n with
  | zero =>
    intro s hcount hstop hq hall
    refine ⟨s, .refl, ?_, rfl, rfl, rfl⟩
    intro w hw
    rcases hall w hw with h | h
    · exfalso
      have hz := List.countP_eq_zero.mp hcount w hw
      rw [h] at hz
      simp [isAtLoopW] at hz
    · exact h
  | succ n ih =>
    intro s hcount hstop hq hall
    have hpos : 0 < s.workers.countP isAtLoopW := by omega
    rcases List.countP_pos_iff.mp hpos with ⟨w, hw, hww⟩
    have hwa : w = .atLoop := by
      cases w <;> first | rfl | simp [isAtLoopW] at hww
    subst hwa
    rcases List.get?_of_mem hw with ⟨i, hi⟩
    have hstep : Step s { s with workers := s.workers.set i .terminated } :=
      Step.workerExit s i hi hq hstop
    have hcnew : (s.workers.set i .terminated).countP isAtLoopW = n := by
      have hh := countP_set_add isAtLoopW s.workers i .atLoop .terminated hi
      simp [isAtLoopW] at hh
      omega
    obtain ⟨s', hrtg, hterm, hms, hqs, hss⟩ :=
      ih { s with workers := s.workers.set i .terminated } hcnew hstop hq (by
        intro w' hw'
        rcases List.mem_or_eq_of_mem_set hw' with h | h
        · exact hall w' h
        · exact Or.inr h)
    exact ⟨s', .head hstep hrtg, hterm, hms, hqs, hss⟩

/-- The state reached from `s` when worker `i` pops the head task `t'`
off the queue (lines 240-242): the target of the `workerPop` transition. -/
def popState (s : SysState) (i : ℕ) (t' : AudioTask) (rest : List AudioTask) : SysState :=
  { s with queue := rest, workers := s.workers.set i (.processing t') }

/-! ### Claims C1, C2, C3, C7, C10 about the harness -/

/-- C1: in every reachable state in which the dispatcher's drain-wait has
returned (states from `stopping` onwards), every one of the `N` pushed
tasks has been individually completed — the ghost completion log has
exactly `N` entries, one per pushed task, each recording success or logged
failure — so the drain-wait never returns early; and for a run that
enumerated zero tasks, every reachable state has the dispatcher in the
enumeration phase, at the zero-check of line 355, or at the no-op success
exit `exited 0 none`, with every worker slot still `notStarted`: it never
creates workers, never reaches the drain-wait, and exits 0. -/
theorem c1_drain_wait_completion (ts : List AudioTask) (W : ℕ) (s : SysState)
    (h : Reachable ts W s) :
    (mainPastDrain s.mainSt → s.completedLog.length = ts.length ∧ s.active = 0)
    ∧ (ts = [] →
        (∀ w ∈ s.workers, w = .notStarted)
        ∧ (s.mainSt = .pushing [] ∨ s.mainSt = .checkEmpty
            ∨ s.mainSt = .exited 0 none)) := by
  have hinv := inv_reachable h
  constructor
  · intro hpd
    have ha := hinv.drained hpd
    have hrem := remPushes_of_started _ (pastDrain_started _ hpd)
    have hcnt := hinv.counter
    have hcons := hinv.conserve
    exact ⟨by omega, ha⟩
  · intro hts
    have h0 : ts.length = 0 := by rw [hts]; rfl
    have hm := hinv.empty_run h0
    refine ⟨hinv.dormant ?_, hm⟩
    rcases hm with h' | h' | h' <;> rw [h'] <;> simp [mainStarted]

/-- C1 witness: the completed end-to-end run `trc11` of the one-task
execution is past the drain, and indeed its log has one entry and the
counter is 0. -/
theorem c1_drain_wait_completion_witness :
    trc11.completedLog.length = [taskA].length ∧ trc11.active = 0 :=
  (c1_drain_wait_completion [taskA] 1 trc11 reach_trc11).1
    (by simp [trc11, mainPastDrain])

/-- C2: in every reachable state where the dispatcher has performed the
stop broadcast (lines 381-384) and is joining, the stop flag is set, the
queue is empty, and no worker is parked or mid-task any more — each is at
its loop head or already terminated (every parked worker was woken by the
broadcast) — and from there the pool provably runs to a state where every
worker has terminated and the dispatcher's `pthread_join` loop can
complete (the `mainJoin` transition is enabled): no deadlock, regardless
of how many workers were waiting at the moment of the broadcast. -/
theorem c2_shutdown_terminates (ts : List AudioTask) (W : ℕ) (s : SysState)
    (h : Reachable ts W s) (hj : s.mainSt = .joining) :
    s.stop = true ∧ s.queue = []
    ∧ (∀ w ∈ s.workers, w = .atLoop ∨ w = .terminated)
    ∧ ∃ s', Relation.ReflTransGen Step s s'
        ∧ (∀ w ∈ s'.workers, w = .terminated)
        ∧ Step s' { s' with mainSt := .printing } := by
  have hinv := inv_reachable h
  have hstop : s.stop = true := hinv.stop_iff.mpr (by rw [hj]; simp [mainAfterStop])
  have hq : s.queue = [] := by
    have ha := hinv.drained (by rw [hj]; simp [mainPastDrain])
    have hcnt := hinv.counter
    have hlen : s.queue.length = 0 := by omega
    exact List.length_eq_zero.mp hlen
  have hall := hinv.after_stop (by rw [hj]; simp [mainAfterStop])
  refine ⟨hstop, hq, hall, ?_⟩
  obtain ⟨s', hrtg, hterm, hms, _, _⟩ :=
    terminate_all (s.workers.countP isAtLoopW) s rfl hstop hq hall
  refine ⟨s', hrtg, hterm, ?_⟩
  exact Step.mainJoin s' (by rw [hms, hj]) hterm

/-- C2 witness: the reachable joining state `trc8` of the one-task
execution, with its single worker parked at the loop head. -/
theorem c2_shutdown_terminates_witness :
    trc8.stop = true ∧ trc8.queue = []
    ∧ (∀ w ∈ trc8.workers, w = .atLoop ∨ w = .terminated)
    ∧ ∃ s', Relation.ReflTransGen Step trc8 s'
        ∧ (∀ w ∈ s'.workers, w = .terminated)
        ∧ Step s' { s' with mainSt := .printing } :=
  c2_shutdown_terminates [taskA] 1 trc8 reach_trc8 rfl

/-- C3: in every reachable state `g_active_tasks_count` equals the number
of pushed tasks not yet fully processed (`N` minus the tasks still to
push minus the completed ones); along every transition the counter is
decremented exactly when one completion is appended to the ghost log
(`workerFinish`, after the full pipeline), incremented exactly at a push,
and otherwise unchanged — in particular the only queue-shortening
transition, the pop of lines 240-242, changes neither the counter nor the
log; and queue emptiness does not imply a zero counter: the reachable
state `trc5` has an empty queue and counter 1 (one task mid-processing). -/
theorem c3_counter_invariant (ts : List AudioTask) (W : ℕ) (s : SysState)
    (h : Reachable ts W s) :
    s.active = (ts.length : ℤ) - (remPushes s.mainSt : ℤ) - (s.completedLog.length : ℤ)
    ∧ (∀ s', Step s s' →
        (s'.active = s.active - 1 ∧ ∃ e, s'.completedLog = s.completedLog ++ [e])
        ∨ (s'.active = s.active + 1 ∧ s'.completedLog = s.completedLog)
        ∨ (s'.active = s.active ∧ s'.completedLog = s.completedLog))
    ∧ (∀ s', Step s s' → s'.queue.length < s.queue.length →
        s'.active = s.active ∧ s'.completedLog = s.completedLog)
    ∧ ∃ u, Reachable [taskA] 1 u ∧ u.queue = [] ∧ u.active = 1 := by
  have hinv := inv_reachable h
  refine ⟨?_, ?_, ?_, trc5, reach_trc5, rfl, rfl⟩
  · have hcnt := hinv.counter
    have hcons := hinv.conserve
    omega
  · intro s' hstp
    cases hstp with
    | workerFinish i t ok hi =>
      left
      exact ⟨rfl, (t, ok), rfl⟩
    | mainPush t rest hm =>
      right; left
      exact ⟨rfl, rfl⟩
    | workerWait i hi hq hs => right; right; exact ⟨rfl, rfl⟩
    | workerExit i hi hq hs => right; right; exact ⟨rfl, rfl⟩
    | workerPop i t rest hi hq => right; right; exact ⟨rfl, rfl⟩
    | workerSpurious i hi => right; right; exact ⟨rfl, rfl⟩
    | mainPushDone hm => right; right; exact ⟨rfl, rfl⟩
    | mainExitEmpty hm ha => right; right; exact ⟨rfl, rfl⟩
    | mainStartWorkers hm ha => right; right; exact ⟨rfl, rfl⟩
    | mainBroadcastAvail hm => right; right; exact ⟨rfl, rfl⟩
    | mainDrainExit hm ha => right; right; exact ⟨rfl, rfl⟩
    | mainDrainWait hm ha => right; right; exact ⟨rfl, rfl⟩
    | mainDrainSpurious hm => right; right; exact ⟨rfl, rfl⟩
    | mainStop hm => right; right; exact ⟨rfl, rfl⟩
    | mainJoin hm hall => right; right; exact ⟨rfl, rfl⟩
    | mainPrint hm => right; right; exact ⟨rfl, rfl⟩
  · intro s' hstp hlt
    cases hstp with
    | workerPop i t rest hi hq => exact ⟨rfl, rfl⟩
    | mainPush t rest hm =>
      exfalso
      simp only [List.length_append, List.length_cons, List.length_nil] at hlt
      omega
    | workerWait i hi hq hs => exact absurd hlt (lt_irrefl _)
    | workerExit i hi hq hs => exact absurd hlt (lt_irrefl _)
    | workerFinish i t ok hi => exact absurd hlt (lt_irrefl _)
    | workerSpurious i hi => exact absurd hlt (lt_irrefl _)
    | mainPushDone hm => exact absurd hlt (lt_irrefl _)
    | mainExitEmpty hm ha => exact absurd hlt (lt_irrefl _)
    | mainStartWorkers hm ha => exact absurd hlt (lt_irrefl _)
    | mainBroadcastAvail hm => exact absurd hlt (lt_irrefl _)
    | mainDrainExit hm ha => exact absurd hlt (lt_irrefl _)
    | mainDrainWait hm ha => exact absurd hlt (lt_irrefl _)
    | mainDrainSpurious hm => exact absurd hlt (lt_irrefl _)
    | mainStop hm => exact absurd hlt (lt_irrefl _)
    | mainJoin hm hall => exact absurd hlt (lt_irrefl _)
    | mainPrint hm => exact absurd hlt (lt_irrefl _)

/-- C3 witness: the counter equation instantiated at the reachable
mid-processing state `trc5`. -/
theorem c3_counter_invariant_witness :
    trc5.active = (([taskA].length : ℕ) : ℤ) - (remPushes trc5.mainSt : ℤ)
      - (trc5.completedLog.length : ℤ) :=
  (c3_counter_invariant [taskA] 1 trc5 reach_trc5).1

/-- C7: whenever a worker of a reachable state holds a task whose pipeline
fails (`ok = false`: load or save failure, logged on lines 259/264), the
very same completion bookkeeping as on success is a legal next step: the
worker decrements the counter, appends the (failed) completion to the
ghost log, returns to its loop head — it does NOT terminate — and if the
failed task was the last one it wakes the parked dispatcher; if more tasks
are queued the same worker can immediately pop the next one.  Moreover
every exit the harness can reach has code 0 (line 398) — only the
configuration-phase checks of lines 282-353, which run before any worker
exists, return 1. -/
theorem c7_task_failure_isolated (ts : List AudioTask) (W : ℕ) (s : SysState)
    (h : Reachable ts W s) :
    (∀ i t, s.workers.get? i = some (.processing t) →
      Step s (finishState s i t false)
      ∧ (finishState s i t false).workers.get? i = some .atLoop
      ∧ (finishState s i t false).active = s.active - 1
      ∧ (finishState s i t false).completedLog = s.completedLog ++ [(t, false)]
      ∧ (s.active - 1 = 0 ∧ s.queue = [] ∧ s.mainSt = .drainWaiting →
          (finishState s i t false).mainSt = .draining)
      ∧ (∀ t' rest, s.queue = t' :: rest →
          Step (finishState s i t false) (popState (finishState s i t false) i t' rest)))
    ∧ (∀ c p, s.mainSt = .exited c p → c = 0) := by
  have hinv := inv_reachable h
  refine ⟨?_, hinv.exit_code⟩
  intro i t hi
  have hilt : i < s.workers.length := get?_lt_length hi
  have hset : (finishState s i t false).workers.get? i = some .atLoop := by
    simp only [finishState]
    exact get?_set_self s.workers i _ hilt
  refine ⟨Step.workerFinish s i t false hi, hset, rfl, rfl, ?_, ?_⟩
  · intro hc
    simp only [finishState]
    rw [if_pos hc]
  · intro t' rest hq
    refine Step.workerPop _ i t' rest hset ?_
    simp only [finishState]
    exact hq

/-- C7 witness: the failing-pipeline bookkeeping step applied to the
reachable state `trc5`, whose worker 0 is processing `taskA`. -/
theorem c7_task_failure_isolated_witness :
    Step trc5 (finishState trc5 0 taskA false)
    ∧ (finishState trc5 0 taskA false).workers.get? 0 = some .atLoop
    ∧ (finishState trc5 0 taskA false).active = trc5.active - 1
    ∧ (finishState trc5 0 taskA false).completedLog
        = trc5.completedLog ++ [(taskA, false)]
    ∧ (trc5.active - 1 = 0 ∧ trc5.queue = [] ∧ trc5.mainSt = .drainWaiting →
        (finishState trc5 0 taskA false).mainSt = .draining)
    ∧ (∀ t' rest, trc5.queue = t' :: rest →
        Step (finishState trc5 0 taskA false)
          (popState (finishState trc5 0 taskA false) 0 t' rest)) :=
  (c7_task_failure_isolated [taskA] 1 trc5 reach_trc5).1 0 taskA rfl

/-- C10: in every reachable final state that printed the completion
message (line 397, reached exactly when at least one task was dispatched),
the printed "Total files processed" value is the post-drain value of
`g_active_tasks_count`, namely 0 — while the number of files actually
processed is `ts.length`, so for any dispatched batch (`ts.length ≥ 1`)
the printed count never equals it. -/
theorem c10_printed_count_zero (ts : List AudioTask) (W : ℕ) (s : SysState)
    (h : Reachable ts W s) (c p : ℤ)
    (he : s.mainSt = .exited c (some p)) :
    p = 0 ∧ s.active = 0 ∧ s.completedLog.length = ts.length ∧ ts ≠ []
    ∧ (1 ≤ ts.length → p ≠ (ts.length : ℤ)) := by
  have hinv := inv_reachable h
  have hp0 : p = 0 := hinv.printed_zero c p he
  have hpd : mainPastDrain s.mainSt := by rw [he]; simp [mainPastDrain]
  have ha := hinv.drained hpd
  have hlog : s.completedLog.length = ts.length := by
    have hcnt := hinv.counter
    have hcons := hinv.conserve
    have hrem := remPushes_of_started _ (pastDrain_started _ hpd)
    omega
  have hne : ts ≠ [] := by
    intro hts
    have h0 : ts.length = 0 := by rw [hts]; rfl
    rcases hinv.empty_run h0 with hh | hh | hh <;> rw [he] at hh <;> simp at hh
  exact ⟨hp0, ha, hlog, hne, fun hN => by rw [hp0]; omega⟩

/-- C10 witness: the final state `trc11` of the one-task run printed 0,
yet one file was actually processed. -/
theorem c10_printed_count_zero_witness :
    (0 : ℤ) = 0 ∧ trc11.active = 0 ∧ trc11.completedLog.length = [taskA].length
    ∧ [taskA] ≠ [] ∧ (1 ≤ [taskA].length → (0 : ℤ) ≠ (([taskA].length : ℕ) : ℤ)) :=
  c10_printed_count_zero [taskA] 1 trc11 reach_trc11 0 0 rfl

end AudioPeak
